import Mathlib

/-!
Verification development for the CPyComp C99 preprocessor
(`c99_preprocessor.py`, `intermediate_representation.py`).

The Python code is shallowly embedded: buffers are `List Char`, Python
values flowing through the PLY semantic actions are `PyVal`, fallible
Python code (raised exceptions) is `Except String`.  Each definition
mirrors one Python function or production action; the source location is
named in its doc comment.
-/

namespace CPyComp

/-- Model of the Python runtime values that flow through the semantic
actions of the preprocessor grammar: `None`, `int`, `bool`, `str`, and
opaque function objects (only their identity matters). -/
inductive PyVal where
  | vNone
  | vInt (n : Int)
  | vBool (b : Bool)
  | vStr (s : String)
  | vFunc (name : String)
  deriving DecidableEq, Repr

/-- Python truthiness of a `PyVal` (used by `if p[2]:`-style tests). -/
def pyTruthy : PyVal → Bool
  | PyVal.vNone => false
  | PyVal.vInt n => n != 0
  | PyVal.vBool b => b
  | PyVal.vStr s => s != ""
  | PyVal.vFunc _ => true

/-- Python `str()` of a `PyVal`. -/
def pyStr : PyVal → String
  | PyVal.vNone => "None"
  | PyVal.vInt n => toString n
  | PyVal.vBool b => if b then "True" else "False"
  | PyVal.vStr s => s
  | PyVal.vFunc f => f

/-- Last character of a buffer (`s[-1]` when the buffer is non-empty). -/
def lastChar : List Char → Option Char
  | [] => none
  | [c] => some c
  | _ :: c :: rest => lastChar (c :: rest)

/-- One left-to-right, non-overlapping replacement pass, the semantics of
Python `str.replace(pat, rep)`.  The fuel argument is instantiated with
the length of the buffer, which always suffices because every step
consumes at least one character. -/
def replaceAllFuel (pat rep : List Char) : Nat → List Char → List Char
  | 0, s => s
  | _ + 1, [] => []
  | fuel + 1, c :: rest =>
    if pat.isPrefixOf (c :: rest) then
      rep ++ replaceAllFuel pat rep fuel (List.drop pat.length (c :: rest))
    else
      c :: replaceAllFuel pat rep fuel rest

/-- Python `s.replace(pat, rep)` for a non-empty pattern. -/
def replaceAll (pat rep s : List Char) : List Char :=
  replaceAllFuel pat rep s.length s

/-- The `_di_tri_graph_replace_table` dict of `C99PreProcessor.__init__`
(`c99_preprocessor.py:266-273`), in Python dict insertion order.  Note the
second and fourth keys are spelled `>:` and `>%` in the source. -/
def diTriTable : List (List Char × List Char) :=
  [ (['<', ':'], ['[']),
    (['>', ':'], [']']),
    (['<', '%'], ['\x7b']),
    (['>', '%'], ['\x7d']),
    (['%', ':'], ['#']),
    (['?', '?', '='], ['#']),
    (['?', '?', '/'], ['\\']),
    (['?', '?', Char.ofNat 39], ['^']),
    (['?', '?', '('], ['[']),
    (['?', '?', ')'], [']']),
    (['?', '?', '!'], ['|']),
    (['?', '?', '<'], ['\x7b']),
    (['?', '?', '>'], ['\x7d']),
    (['?', '?', '-'], ['~']) ]

/-- `C99PreProcessor._replace_di_trigraph` (`c99_preprocessor.py:1045-1055`):
apply `str.replace` successively for each table entry, in dict order. -/
def replaceDiTrigraph (s : List Char) : List Char :=
  diTriTable.foldl (fun acc pr => replaceAll pr.1 pr.2 acc) s

/-- `C99PreProcessor._join_backslash` (`c99_preprocessor.py:1057-1064`):
`file_content.replace('\\\n', '')`. -/
def joinBackslash (s : List Char) : List Char :=
  replaceAll ['\\', '\n'] [] s

/-- `C99PreProcessor._is_source_file` (`c99_preprocessor.py:1075-1082`):
`len(file_content) and file_content[-1] == '\n'`. -/
def isSourceFile (s : List Char) : Bool :=
  (s.length != 0) && (lastChar s == some '\n')

/-- The newline-appending step of `process` (`c99_preprocessor.py:1099-1100`). -/
def ensureNL (s : List Char) : List Char :=
  if isSourceFile s then s else s ++ ['\n']

/-- The Phase Filter as performed at the start of `process`
(`c99_preprocessor.py:1094-1110`) on the default `keep_comment = True`
path: append a final newline if missing, replace digraphs/trigraphs,
then splice backslash-newlines.  (With `keep_comment = False` a comment
stripping regex runs afterwards; the claims studied here do not involve
comments.) -/
def phaseFilter (s : List Char) : List Char :=
  joinBackslash (replaceDiTrigraph (ensureNL s))

/-- Does the buffer contain a backslash immediately followed by a newline? -/
def hasBSNL : List Char → Bool
  | [] => false
  | [_] => false
  | c :: d :: rest => (c == '\\' && d == '\n') || hasBSNL (d :: rest)

/-- The `Macro` record of `intermediate_representation.py:101-109`.  The
`has_been_expanded` flag is omitted: `expand_macro` resets it to `False`
before every return, so it is `False` whenever the engine enters
`expand`, and the guarded path is always taken.  A callback is an opaque
host function from its stored argument list to a value. -/
structure MacroIR where
  name : String
  replacement : PyVal
  arg_list : Option (List PyVal)
  variadic : Bool
  callback : Option (List PyVal → PyVal)

/-- Truthiness of the Python `arg_list` attribute, which is either `None`
or a list (`None` and `[]` are falsy). -/
def optTruthy : Option (List PyVal) → Bool
  | none => false
  | some l => !l.isEmpty

/-- Python `len(x)` on the `arg_list` attribute: raises `TypeError` on
`None`. -/
def lenArgAttr : Option (List PyVal) → Except String Nat
  | none => Except.error "TypeError: object of type NoneType has no len()"
  | some l => Except.ok l.length

/-- The `for label, arg in zip(...)` substitution loop of `Macro.expand`
(`intermediate_representation.py:127-128`): successive
`replacement.replace(label, arg)` on string operands. -/
def substParams : List (PyVal × PyVal) → List Char → Except String (List Char)
  | [], r => Except.ok r
  | (label, arg) :: rest, r =>
    match label, arg with
    | PyVal.vStr l, PyVal.vStr a => substParams rest (replaceAll l.toList a.toList r)
    | _, _ => Except.error "TypeError: replace() argument must be str"

/-- `Macro.expand` (`intermediate_representation.py:111-141`), with the
branch structure of the source: a truthy caller argument list triggers
the arity check, the callback guard and textual substitution; otherwise a
stored callback is invoked (string results are wrapped in double quotes,
others stringified); otherwise a truthy stored `arg_list` with no caller
arguments raises; otherwise the replacement is returned unchanged. -/
def MacroIR.expand (m : MacroIR) (argList : Option (List PyVal)) : Except String PyVal :=
  if optTruthy argList then
    let args := argList.getD []
    match (if m.variadic then Except.ok () else
            match lenArgAttr m.arg_list with
            | Except.error e => Except.error e
            | Except.ok n =>
              if args.length ≠ n then
                Except.error "Number of arguments not matching with expected list length."
              else Except.ok ()) with
    | Except.error e => Except.error e
    | Except.ok _ =>
      if m.callback.isSome then
        Except.error "Callback macro can't be called with user provided argument list."
      else
        match m.replacement with
        | PyVal.vStr r =>
          match substParams (List.zip (m.arg_list.getD []) args) r.toList with
          | Except.ok r2 => Except.ok (PyVal.vStr (String.mk r2))
          | Except.error e => Except.error e
        | _ => Except.error "AttributeError: replace"
  else if m.callback.isSome then
    match m.callback, m.arg_list with
    | some cb, some stored =>
      match cb stored with
      | PyVal.vStr sres => Except.ok (PyVal.vStr ("\"" ++ sres ++ "\""))
      | v => Except.ok (PyVal.vStr (pyStr v))
    | some _, none => Except.error "TypeError: argument after * must be an iterable"
    | none, _ => Except.ok m.replacement
  else if optTruthy m.arg_list then
    Except.error "Function like macro needs argument list."
  else
    Except.ok m.replacement

/-- Python dict assignment `d[k] = v`: lookup-transparent association
update (lookup finds the new binding; other keys are unaffected). -/
def tblInsert {α : Type} (k : String) (v : α) (t : List (String × α)) : List (String × α) :=
  (k, v) :: t.filter (fun p => p.1 ≠ k)

/-- `C99PreProcessor.define_macro` (`c99_preprocessor.py:937-951`): the
macro record is constructed with the FOUR positional arguments
`name, replacement, arg_list, variadic` — the `callback` parameter of
`Macro.__init__` is never supplied and defaults to `None`. -/
def defineMacroTbl (tbl : List (String × MacroIR)) (name : String) (replacement : PyVal)
    (argList : Option (List PyVal)) (variadic : Bool) : List (String × MacroIR) :=
  tblInsert name { name := name, replacement := replacement, arg_list := argList,
                   variadic := variadic, callback := none } tbl

/-- `C99PreProcessor.expand_macro` with no call-site arguments
(`c99_preprocessor.py:953-973`): look the name up and run
`Macro.expand(None)`; an undefined name raises `NameError`. -/
def expandMacroTbl (tbl : List (String × MacroIR)) (name : String) : Except String PyVal :=
  match List.lookup name tbl with
  | some m => m.expand none
  | none => Except.error ("Macro " ++ name ++ " not defined.")

/-- The built-in macro table registered by `C99PreProcessor.__init__`
(`c99_preprocessor.py:258-262`): `time.strftime` is passed as the second
positional argument of `define_macro`, i.e. as the REPLACEMENT;
`__FILE__` gets the current (empty) file string and `__LINE__` the
initial line number 1. -/
def builtinTable : List (String × MacroIR) :=
  defineMacroTbl
    (defineMacroTbl
      (defineMacroTbl
        (defineMacroTbl [] "__DATE__" (PyVal.vFunc "time.strftime")
          (some [PyVal.vStr "%b %d %Y", PyVal.vFunc "time.localtime"]) false)
        "__FILE__" (PyVal.vStr "") none false)
      "__LINE__" (PyVal.vInt 1) none false)
    "__TIME__" (PyVal.vFunc "time.strftime")
    (some [PyVal.vStr "%H:%M:%S", PyVal.vFunc "time.localtime"]) false

/-- `p_token` on an IDENTIFIER (`c99_preprocessor.py:846-853`): a defined
macro name is expanded, any other identifier is its own value. -/
def pTokenIdent (tbl : List (String × MacroIR)) (x : String) : Except String PyVal :=
  if (List.lookup x tbl).isSome then expandMacroTbl tbl x else Except.ok (PyVal.vStr x)

/-- Is the value a Python `str`? (`str.join` requires it.) -/
def isStrVal : PyVal → Bool
  | PyVal.vStr _ => true
  | _ => false

/-- The exception raised by Python `' '.join` on a non-`str` item. -/
def joinTypeMsg : String := "TypeError: sequence item 0: expected str instance, int found"

/-- Python `' '.join(vs)`: concatenates string items with single spaces
and raises `TypeError` if any item is not a `str`. -/
def joinSpace (vs : List PyVal) : Except String String :=
  if vs.all isStrVal then Except.ok (String.intercalate " " (vs.map pyStr))
  else Except.error joinTypeMsg

/-- `p_text_line` for `token_list NEWLINE` (`c99_preprocessor.py:801-807`):
`' '.join(p[1:])` over the token-list value and the newline lexeme. -/
def pTextLine (tokListVal : PyVal) (newlineVal : String) : Except String String :=
  joinSpace [tokListVal, PyVal.vStr newlineVal]

/-- C4: the digraph/trigraph pass does NOT replace the ISO digraphs `:>`
and `%>`; the source table instead contains the transposed spellings `>:`
and `>%`.  Evaluating `_replace_di_trigraph` shows `:>` and `%>` pass
through unchanged while `>:` and `>%` are rewritten. -/
theorem digraph_table_transposed :
    replaceDiTrigraph [':', '>'] = [':', '>']
  ∧ replaceDiTrigraph ['%', '>'] = ['%', '>']
  ∧ replaceDiTrigraph ['>', ':'] = [']']
  ∧ replaceDiTrigraph ['>', '%'] = ['\x7d']
  ∧ ([':', '>'] ≠ ([']'] : List Char)) := by
  refine ⟨by decide, by decide, by decide, by decide, by decide⟩

/-- C3 (counterexample): the phase-filter buffer need not end with a
newline and may still contain a backslash-newline.  Input `a\` gets a
newline appended, then splicing deletes the trailing `\`+newline, so the
result is `a` with no final newline.  Input `\\` + newline + newline
contains one splice occurrence whose single-pass removal brings a `\` and
a newline together, leaving a `\`+newline in the output. -/
theorem phase_filter_counterexample :
    phaseFilter ['a', '\\'] = ['a']
  ∧ lastChar (phaseFilter ['a', '\\']) ≠ some '\n'
  ∧ phaseFilter ['\\', '\\', '\n', '\n'] = ['\\', '\n']
  ∧ hasBSNL (phaseFilter ['\\', '\\', '\n', '\n']) = true := by
  refine ⟨by decide, by decide, by decide, by decide⟩

/-- Constant-expression fragment relevant to the claims, as produced by
the grammar of `c99_preprocessor.py`: integer constants, identifiers
(`p_primary_expression`), and the ternary conditional
(`p_conditional_expression`). -/
inductive CExpr where
  | const (n : Int)
  | ident (x : String)
  | cond (a b c : CExpr)

/-- Evaluation of the constant-expression fragment by the semantic
actions.  `p_primary_expression` (`c99_preprocessor.py:623-630`) expands
a defined macro name and otherwise returns the identifier STRING itself.
`p_conditional_expression` (`c99_preprocessor.py:784-792`) computes
`p[1] if p[2] else p[3]` where `p[2]` is the literal `?` token of the
production `logical_or '?' conditional ':' conditional` — so the test is
the always-truthy string and the arms are the condition value `p[1]` and
the first branch value `p[3]`. -/
def evalExpr (tbl : List (String × MacroIR)) : CExpr → Except String PyVal
  | CExpr.const n => Except.ok (PyVal.vInt n)
  | CExpr.ident x =>
    if (List.lookup x tbl).isSome then expandMacroTbl tbl x else Except.ok (PyVal.vStr x)
  | CExpr.cond a b c =>
    match evalExpr tbl a, evalExpr tbl b, evalExpr tbl c with
    | Except.ok va, Except.ok vb, Except.ok _ =>
      Except.ok (if pyTruthy (PyVal.vStr "?") then va else vb)
    | Except.error e, _, _ => Except.error e
    | _, Except.error e, _ => Except.error e
    | _, _, Except.error e => Except.error e

/-- `p_if_group` (`c99_preprocessor.py:418-429`): the semantic value is
the pair of the condition value and the group text kept only when the
condition is truthy. -/
def ifGroup (v : PyVal) (grp : String) : PyVal × String :=
  (v, if pyTruthy v then grp else "")

/-- `p_if_section3` for `if_group else_group endif_line`
(`c99_preprocessor.py:370-387`): the selected text is the if-branch when
the condition value is truthy, the else-branch otherwise (the rescan pass
re-parses this text and is not modelled). -/
def ifSection3 (ig : PyVal × String) (elseGrp : String) : String :=
  if pyTruthy ig.1 then ig.2 else elseGrp

/-- C1 (code bug): for `#define FOO 1` followed by a line holding only
`FOO`, the define stores the `int` 1 as replacement (`t_INTEGER` converts
the lexeme), `p_token` expands `FOO` to that `int`, and `p_text_line`'s
`' '.join` over `[1, '\n']` raises `TypeError` — `process()` crashes
instead of emitting `1` on the second line. -/
theorem s1_text_line_raises :
    (Option.map MacroIR.replacement
        (List.lookup "FOO" (defineMacroTbl builtinTable "FOO" (PyVal.vInt 1) none false)))
      = some (PyVal.vInt 1)
  ∧ pTokenIdent (defineMacroTbl builtinTable "FOO" (PyVal.vInt 1) none false) "FOO"
      = Except.ok (PyVal.vInt 1)
  ∧ pTextLine (PyVal.vInt 1) "\n" = Except.error joinTypeMsg := by
  refine ⟨rfl, rfl, rfl⟩

/-- C2 (code bug): an identifier that is not a macro-table key evaluates
to the identifier string itself, not to the integer 0; the non-empty
string is truthy, so `#if FOO` with `FOO` undefined selects the TRUE
branch. -/
theorem undef_ident_selects_true_branch :
    evalExpr [] (CExpr.ident "FOO") = Except.ok (PyVal.vStr "FOO")
  ∧ pyTruthy (PyVal.vStr "FOO") = true
  ∧ ifSection3 (ifGroup (PyVal.vStr "FOO") "A \n") "B \n" = "A \n" := by
  refine ⟨rfl, rfl, rfl⟩

/-- C6 (code bug): `a ? b : c` evaluates to the value of `a` itself,
because the action tests `p[2]` (the always-truthy `?` lexeme) and its
arms are `p[1]` and `p[3]`.  `0 ? 5 : 7` yields 0 (the C result is 7) and
`1 ? 5 : 7` yields 1 (the C result is 5). -/
theorem conditional_returns_condition :
    evalExpr [] (CExpr.cond (CExpr.const 0) (CExpr.const 5) (CExpr.const 7))
      = Except.ok (PyVal.vInt 0)
  ∧ evalExpr [] (CExpr.cond (CExpr.const 1) (CExpr.const 5) (CExpr.const 7))
      = Except.ok (PyVal.vInt 1) := by
  refine ⟨rfl, rfl⟩

/-- C9 (code bug): `define_macro` never forwards a callback, so the
built-in `__DATE__` and `__TIME__` records carry `callback = None` with
`time.strftime` stored as the REPLACEMENT and a truthy `arg_list`;
expanding them with no argument list therefore raises
`Function like macro needs argument list.` instead of invoking a
callback and quoting its result. -/
theorem builtin_date_expansion_fails :
    (Option.map (fun m => m.callback.isSome) (List.lookup "__DATE__" builtinTable)) = some false
  ∧ expandMacroTbl builtinTable "__DATE__"
      = Except.error "Function like macro needs argument list."
  ∧ (Option.map (fun m => m.callback.isSome) (List.lookup "__TIME__" builtinTable)) = some false
  ∧ expandMacroTbl builtinTable "__TIME__"
      = Except.error "Function like macro needs argument list." := by
  refine ⟨rfl, rfl, rfl, rfl⟩

/-- Directive-introducer tokens as classified by `t_DIRECTIVE`
(`c99_preprocessor.py:138-153`) for the purpose of the `nested_if`
counter: `#if`/`#ifdef`/`#ifndef` increment, `#endif` decrements, every
other token leaves it unchanged. -/
inductive PTok where
  | ifTok
  | endifTok
  | otherTok
  deriving DecidableEq, Repr

/-- The message of the exception raised on `#endif` underflow
(`c99_preprocessor.py:151`). -/
def endifMsg : String := "Number of #endif doesn't match with number of #if."

/-- The `nested_if` update performed by `t_DIRECTIVE` on one token:
increment on an if-introducer, decrement on `#endif` with the underflow
check `if self.nested_if < 0: raise`. -/
def stepNestedIf (n : Int) : PTok → Except String Int
  | PTok.ifTok => Except.ok (n + 1)
  | PTok.endifTok => if n - 1 < 0 then Except.error endifMsg else Except.ok (n - 1)
  | PTok.otherTok => Except.ok n

/-- Scanning a buffer: fold `stepNestedIf` over the token stream,
propagating the underflow exception. -/
def scanDirectives : Int → List PTok → Except String Int
  | n, [] => Except.ok n
  | n, t :: ts =>
    match stepNestedIf n t with
    | Except.ok m => scanDirectives m ts
    | Except.error e => Except.error e

/-- Number of `#if`/`#ifdef`/`#ifndef` introducers in a token stream. -/
def countIf (ts : List PTok) : Nat := ts.countP (fun t => t == PTok.ifTok)

/-- Number of `#endif` tokens in a token stream. -/
def countEndif (ts : List PTok) : Nat := ts.countP (fun t => t == PTok.endifTok)

/-- All prefixes of a token stream (shortest first). -/
def initsP : List PTok → List (List PTok)
  | [] => [[]]
  | t :: ts => [] :: (initsP ts).map (fun p => t :: p)

theorem nil_mem_initsP (l : List PTok) : [] ∈ initsP l := by
  cases l with
  | nil => exact List.mem_singleton.mpr rfl
  | cons t ts => exact List.mem_cons_self _ _

theorem self_mem_initsP (l : List PTok) : l ∈ initsP l := by
  induction l with
  | nil => exact List.mem_singleton.mpr rfl
  | cons t ts ih =>
    show t :: ts ∈ [] :: (initsP ts).map (fun p => t :: p)
    exact List.mem_cons_of_mem _ (List.mem_map.mpr ⟨ts, ih, rfl⟩)

theorem cons_mem_initsP (t : PTok) {p ts : List PTok} (h : p ∈ initsP ts) :
    (t :: p) ∈ initsP (t :: ts) := by
  show t :: p ∈ [] :: (initsP ts).map (fun q => t :: q)
  exact List.mem_cons_of_mem _ (List.mem_map.mpr ⟨p, h, rfl⟩)

theorem mem_initsP_cons {p : List PTok} {t : PTok} {ts : List PTok}
    (h : p ∈ initsP (t :: ts)) : p = [] ∨ ∃ q ∈ initsP ts, p = t :: q := by
  rcases List.mem_cons.mp h with h0 | h1
  · exact Or.inl h0
  · obtain ⟨q, hq, rfl⟩ := List.mem_map.mp h1
    exact Or.inr ⟨q, hq, rfl⟩

theorem initsP_subset :
    ∀ (ts p : List PTok), p ∈ initsP ts → ∀ q ∈ initsP p, q ∈ initsP ts := by
  intro ts
  induction ts with
  | nil =>
    intro p hp q hq
    have : p = [] := List.mem_singleton.mp hp
    subst this
    exact hq
  | cons t ts ih =>
    intro p hp q hq
    rcases mem_initsP_cons hp with rfl | ⟨r, hr, rfl⟩
    · have : q = [] := List.mem_singleton.mp hq
      subst this
      exact nil_mem_initsP _
    · rcases mem_initsP_cons hq with rfl | ⟨s, hs, rfl⟩
      · exact nil_mem_initsP _
      · exact cons_mem_initsP t (ih r hr s hs)

theorem countIf_nil : countIf [] = 0 := rfl

theorem countEndif_nil : countEndif [] = 0 := rfl

theorem countIf_cons_if (ts : List PTok) :
    countIf (PTok.ifTok :: ts) = countIf ts + 1 := by
  simp [countIf, List.countP_cons]

theorem countIf_cons_endif (ts : List PTok) :
    countIf (PTok.endifTok :: ts) = countIf ts := by
  simp [countIf, List.countP_cons]

theorem countIf_cons_other (ts : List PTok) :
    countIf (PTok.otherTok :: ts) = countIf ts := by
  simp [countIf, List.countP_cons]

theorem countEndif_cons_if (ts : List PTok) :
    countEndif (PTok.ifTok :: ts) = countEndif ts := by
  simp [countEndif, List.countP_cons]

theorem countEndif_cons_endif (ts : List PTok) :
    countEndif (PTok.endifTok :: ts) = countEndif ts + 1 := by
  simp [countEndif, List.countP_cons]

theorem countEndif_cons_other (ts : List PTok) :
    countEndif (PTok.otherTok :: ts) = countEndif ts := by
  simp [countEndif, List.countP_cons]

theorem scanDirectives_cons_ok {n m : Int} {t : PTok}
    (h : stepNestedIf n t = Except.ok m) (ts : List PTok) :
    scanDirectives n (t :: ts) = scanDirectives m ts := by
  simp [scanDirectives, h]

theorem scanDirectives_cons_err {n : Int} {t : PTok} {e : String}
    (h : stepNestedIf n t = Except.error e) (ts : List PTok) :
    scanDirectives n (t :: ts) = Except.error e := by
  simp [scanDirectives, h]

/-- When every prefix keeps `#endif`s within budget, the scan succeeds
and computes the running difference. -/
theorem scanDirectives_ok :
    ∀ (ts : List PTok) (n : Int), 0 ≤ n →
      (∀ p ∈ initsP ts, (countEndif p : Int) ≤ n + countIf p) →
      scanDirectives n ts = Except.ok (n + countIf ts - countEndif ts) := by
  intro ts
  induction ts with
  | nil =>
    intro n hn hpre
    rw [countIf_nil, countEndif_nil]
    show Except.ok n = _
    congr 1
    omega
  | cons t ts ih =>
    intro n hn hpre
    have hpre' : ∀ p ∈ initsP ts,
        (countEndif (t :: p) : Int) ≤ n + countIf (t :: p) := by
      intro p hp
      exact hpre _ (cons_mem_initsP t hp)
    cases t with
    | ifTok =>
      rw [scanDirectives_cons_ok (show stepNestedIf n PTok.ifTok = Except.ok (n + 1) from rfl) ts]
      rw [ih (n + 1) (by omega) ?_]
      · congr 1
        rw [countIf_cons_if, countEndif_cons_if]
        push_cast
        ring
      · intro p hp
        have := hpre' p hp
        rw [countIf_cons_if, countEndif_cons_if] at this
        push_cast at this ⊢
        omega
    | endifTok =>
      have hone := hpre _ (cons_mem_initsP PTok.endifTok (nil_mem_initsP ts))
      have hone' : (1 : Int) ≤ n := by
        have h1 : countEndif [PTok.endifTok] = 1 := rfl
        have h2 : countIf [PTok.endifTok] = 0 := rfl
        rw [h1, h2] at hone
        push_cast at hone
        omega
      have hstep : stepNestedIf n PTok.endifTok = Except.ok (n - 1) := by
        simp only [stepNestedIf, if_neg (show ¬ (n - 1 < 0) by omega)]
      rw [scanDirectives_cons_ok hstep ts]
      rw [ih (n - 1) (by omega) ?_]
      · congr 1
        rw [countIf_cons_endif, countEndif_cons_endif]
        push_cast
        ring
      · intro p hp
        have := hpre' p hp
        rw [countIf_cons_endif, countEndif_cons_endif] at this
        push_cast at this ⊢
        omega
    | otherTok =>
      rw [scanDirectives_cons_ok (show stepNestedIf n PTok.otherTok = Except.ok n from rfl) ts]
      rw [ih n hn ?_]
      · rw [countIf_cons_other, countEndif_cons_other]
      · intro p hp
        have := hpre' p hp
        rw [countIf_cons_other, countEndif_cons_other] at this
        omega

/-- When some prefix overdraws the counter, the scan raises exactly the
underflow exception. -/
theorem scanDirectives_err :
    ∀ (ts : List PTok) (n : Int), 0 ≤ n →
      (∃ p ∈ initsP ts, n + (countIf p : Int) < countEndif p) →
      scanDirectives n ts = Except.error endifMsg := by
  intro ts
  induction ts with
  | nil =>
    intro n hn hviol
    obtain ⟨p, hp, hv⟩ := hviol
    have : p = [] := List.mem_singleton.mp hp
    subst this
    rw [countIf_nil, countEndif_nil] at hv
    push_cast at hv
    omega
  | cons t ts ih =>
    intro n hn hviol
    obtain ⟨p, hp, hv⟩ := hviol
    rcases mem_initsP_cons hp with rfl | ⟨q, hq, rfl⟩
    · rw [countIf_nil, countEndif_nil] at hv
      push_cast at hv
      omega
    · cases t with
      | ifTok =>
        rw [countIf_cons_if, countEndif_cons_if] at hv
        rw [scanDirectives_cons_ok (show stepNestedIf n PTok.ifTok = Except.ok (n + 1) from rfl) ts]
        apply ih (n + 1) (by omega)
        refine ⟨q, hq, ?_⟩
        push_cast at hv ⊢
        omega
      | endifTok =>
        rw [countIf_cons_endif, countEndif_cons_endif] at hv
        by_cases hz : n - 1 < 0
        · exact scanDirectives_cons_err
            (show stepNestedIf n PTok.endifTok = Except.error endifMsg by
              simp only [stepNestedIf, if_pos hz]) ts
        · rw [scanDirectives_cons_ok
            (show stepNestedIf n PTok.endifTok = Except.ok (n - 1) by
              simp only [stepNestedIf, if_neg hz]) ts]
          apply ih (n - 1) (by omega)
          refine ⟨q, hq, ?_⟩
          push_cast at hv ⊢
          omega
      | otherTok =>
        rw [countIf_cons_other, countEndif_cons_other] at hv
        rw [scanDirectives_cons_ok (show stepNestedIf n PTok.otherTok = Except.ok n from rfl) ts]
        exact ih n hn ⟨q, hq, hv⟩

/-- Any exception the scan raises carries the underflow message. -/
theorem scanDirectives_err_msg :
    ∀ (ts : List PTok) (n : Int) (e : String),
      scanDirectives n ts = Except.error e → e = endifMsg := by
  intro ts
  induction ts with
  | nil =>
    intro n e h
    exact absurd h (by simp [scanDirectives])
  | cons t ts ih =>
    intro n e h
    cases t with
    | ifTok =>
      rw [scanDirectives_cons_ok (show stepNestedIf n PTok.ifTok = Except.ok (n + 1) from rfl) ts] at h
      exact ih _ _ h
    | endifTok =>
      by_cases hz : n - 1 < 0
      · rw [scanDirectives_cons_err
          (show stepNestedIf n PTok.endifTok = Except.error endifMsg by
            simp only [stepNestedIf, if_pos hz]) ts] at h
        exact (Except.error.inj h).symm
      · rw [scanDirectives_cons_ok
          (show stepNestedIf n PTok.endifTok = Except.ok (n - 1) by
            simp only [stepNestedIf, if_neg hz]) ts] at h
        exact ih _ _ h
    | otherTok =>
      rw [scanDirectives_cons_ok (show stepNestedIf n PTok.otherTok = Except.ok n from rfl) ts] at h
      exact ih _ _ h

/-- C7: the `nested_if` counter model.  (1) If every prefix of the stream
has at most as many `#endif`s as if-introducers, the scan succeeds with
the count difference; (2) whenever the scan of the whole buffer succeeds,
the scan of every prefix succeeds with a non-negative counter (the
counter is never negative during scanning); (3) every raised error is
exactly the `#endif`-mismatch exception; (4) an `#endif` with no matching
`#if` (an overdrawing prefix) makes the scan raise that exception;
(5) a well-formed (balanced) stream starts and ends at 0. -/
theorem nestedIf_invariant (ts : List PTok) :
    ((∀ p ∈ initsP ts, (countEndif p : Int) ≤ countIf p) →
        scanDirectives 0 ts = Except.ok ((countIf ts : Int) - countEndif ts))
  ∧ (∀ m, scanDirectives 0 ts = Except.ok m →
        ∀ p ∈ initsP ts, ∃ k : Int, scanDirectives 0 p = Except.ok k ∧ 0 ≤ k)
  ∧ (∀ e, scanDirectives 0 ts = Except.error e → e = endifMsg)
  ∧ ((¬ ∀ p ∈ initsP ts, (countEndif p : Int) ≤ countIf p) →
        scanDirectives 0 ts = Except.error endifMsg)
  ∧ ((∀ p ∈ initsP ts, (countEndif p : Int) ≤ countIf p) → countIf ts = countEndif ts →
        scanDirectives 0 ts = Except.ok 0) := by
  refine ⟨?_, ?_, ?_, ?_, ?_⟩
  · intro h
    have := scanDirectives_ok ts 0 le_rfl (by intro p hp; have := h p hp; omega)
    rw [this]
    congr 1
    omega
  · intro m hm p hp
    have hall : ∀ q ∈ initsP ts, (countEndif q : Int) ≤ countIf q := by
      by_contra hnall
      push_neg at hnall
      obtain ⟨q, hq, hv⟩ := hnall
      have herr := scanDirectives_err ts 0 le_rfl ⟨q, hq, by omega⟩
      rw [hm] at herr
      exact Except.noConfusion herr
    have hq : ∀ q ∈ initsP p, (countEndif q : Int) ≤ countIf q := by
      intro q hqp
      exact hall q (initsP_subset ts p hp q hqp)
    refine ⟨(countIf p : Int) - countEndif p, ?_, ?_⟩
    · have := scanDirectives_ok p 0 le_rfl (by intro q hqq; have := hq q hqq; omega)
      rw [this]
      congr 1
      omega
    · have := hq p (self_mem_initsP p)
      omega
  · intro e he
    exact scanDirectives_err_msg ts 0 e he
  · intro h
    push_neg at h
    obtain ⟨p, hp, hv⟩ := h
    exact scanDirectives_err ts 0 le_rfl ⟨p, hp, by omega⟩
  · intro h hbal
    have := scanDirectives_ok ts 0 le_rfl (by intro p hp; have := h p hp; omega)
    rw [this]
    congr 1
    omega

/-- Witness for C7 at the concrete balanced stream
`#if … other … #endif`: the scan starts at 0 and ends at 0. -/
theorem nestedIf_invariant_witness :
    scanDirectives 0 [PTok.ifTok, PTok.otherTok, PTok.endifTok] = Except.ok 0 :=
  (nestedIf_invariant [PTok.ifTok, PTok.otherTok, PTok.endifTok]).2.2.2.2
    (by decide) (by decide)
theorem lastChar_cons (a : Char) {l : List Char} (h : l ≠ []) :
    lastChar (a :: l) = lastChar l := by
  cases l with
  | nil => exact absurd rfl h
  | cons b m => rfl

theorem lastChar_append (l₁ : List Char) {l₂ : List Char} (h : l₂ ≠ []) :
    lastChar (l₁ ++ l₂) = lastChar l₂ := by
  induction l₁ with
  | nil => rfl
  | cons a l ih =>
    have hne : l ++ l₂ ≠ [] := by
      intro h0
      exact h (List.append_eq_nil.mp h0).2
    rw [List.cons_append, lastChar_cons a hne, ih]

theorem mem_of_lastChar : ∀ {l : List Char} {a : Char}, lastChar l = some a → a ∈ l := by
  intro l
  induction l with
  | nil => intro a h; exact absurd h (by simp [lastChar])
  | cons b m ih =>
    intro a h
    cases m with
    | nil =>
      have : b = a := by simpa [lastChar] using h
      subst this
      exact List.mem_singleton.mpr rfl
    | cons c m' =>
      rw [lastChar_cons b (by simp)] at h
      exact List.mem_cons_of_mem b (ih h)

theorem ne_nil_of_lastChar {l : List Char} {a : Char} (h : lastChar l = some a) : l ≠ [] := by
  intro h0
  subst h0
  exact absurd h (by simp [lastChar])

theorem replaceAllFuel_nil (pat rep : List Char) (fuel : Nat) :
    replaceAllFuel pat rep fuel [] = [] := by
  cases fuel <;> rfl

/-- A replacement pass whose pattern contains no newline preserves a
final newline. -/
theorem replaceAllFuel_lastNL (pat rep : List Char) (hnl : '\n' ∉ pat) :
    ∀ (fuel : Nat) (s : List Char), lastChar s = some '\n' →
      lastChar (replaceAllFuel pat rep fuel s) = some '\n' := by
  intro fuel
  induction fuel with
  | zero => intro s hs; simpa [replaceAllFuel] using hs
  | succ n ih =>
    intro s hs
    cases s with
    | nil => exact absurd hs (by simp [lastChar])
    | cons c rest =>
      by_cases hp : pat.isPrefixOf (c :: rest) = true
      · simp only [replaceAllFuel, if_pos hp]
        obtain ⟨t, ht⟩ := List.isPrefixOf_iff_prefix.mp hp
        have hdrop : List.drop pat.length (c :: rest) = t := by
          rw [← ht]
          exact List.drop_left pat t
        have htne : t ≠ [] := by
          intro h0
          subst h0
          rw [List.append_nil] at ht
          rw [← ht] at hs
          exact hnl (mem_of_lastChar hs)
        have hlast_t : lastChar t = some '\n' := by
          rw [← ht, lastChar_append pat htne] at hs
          exact hs
        have hrec := ih t hlast_t
        rw [hdrop, lastChar_append rep (ne_nil_of_lastChar hrec)]
        exact hrec
      · simp only [replaceAllFuel, if_neg hp]
        cases rest with
        | nil =>
          have hc : c = '\n' := by simpa [lastChar] using hs
          subst hc
          rw [replaceAllFuel_nil]
          rfl
        | cons d rest' =>
          rw [lastChar_cons c (by simp)] at hs
          have hrec := ih (d :: rest') hs
          rw [lastChar_cons c (ne_nil_of_lastChar hrec)]
          exact hrec

theorem replaceAll_lastNL (pat rep : List Char) (hnl : '\n' ∉ pat)
    {s : List Char} (hs : lastChar s = some '\n') :
    lastChar (replaceAll pat rep s) = some '\n' :=
  replaceAllFuel_lastNL pat rep hnl s.length s hs

theorem foldl_replace_lastNL :
    ∀ (tbl : List (List Char × List Char)) (s : List Char),
      (∀ pr ∈ tbl, '\n' ∉ pr.1) → lastChar s = some '\n' →
      lastChar (tbl.foldl (fun acc pr => replaceAll pr.1 pr.2 acc) s) = some '\n' := by
  intro tbl
  induction tbl with
  | nil => intro s _ hs; exact hs
  | cons pr tbl ih =>
    intro s hnl hs
    exact ih _ (fun q hq => hnl q (List.mem_cons_of_mem pr hq))
      (replaceAll_lastNL pr.1 pr.2 (hnl pr (List.mem_cons_self pr tbl)) hs)

theorem ensureNL_lastNL (s : List Char) : lastChar (ensureNL s) = some '\n' := by
  unfold ensureNL
  by_cases h : isSourceFile s = true
  · rw [if_pos h]
    unfold isSourceFile at h
    have := (Bool.and_eq_true _ _).mp h
    exact beq_iff_eq.mp this.2
  · rw [if_neg h]
    rw [lastChar_append s (by simp)]
    rfl

/-- Splicing is the identity on buffers without backslashes. -/
theorem spliceFuel_id (rep : List Char) :
    ∀ (fuel : Nat) (s : List Char), '\\' ∉ s →
      replaceAllFuel ['\\', '\n'] rep fuel s = s := by
  intro fuel
  induction fuel with
  | zero => intro s _; rfl
  | succ n ih =>
    intro s hmem
    cases s with
    | nil => rfl
    | cons c rest =>
      have hp : ¬ (['\\', '\n'].isPrefixOf (c :: rest) = true) := by
        intro hp
        obtain ⟨t, ht⟩ := List.isPrefixOf_iff_prefix.mp hp
        have : c = '\\' := by
          have := congrArg (fun l => l.head?) ht
          simpa using this.symm
        exact hmem (this ▸ List.mem_cons_self c rest)
      simp only [replaceAllFuel, if_neg hp]
      rw [ih rest (fun hm => hmem (List.mem_cons_of_mem c hm))]

theorem hasBSNL_false_of_not_mem :
    ∀ {l : List Char}, '\\' ∉ l → hasBSNL l = false := by
  intro l
  induction l with
  | nil => intro _; rfl
  | cons c rest ih =>
    intro hmem
    cases rest with
    | nil => rfl
    | cons d rest' =>
      have hc : (c == '\\') = false := by
        rcases Bool.eq_false_or_eq_true (c == '\\') with hb | hb
        · refine absurd ?_ hmem
          rw [← beq_iff_eq.mp hb]
          exact List.mem_cons_self c _
        · exact hb
      show ((c == '\\' && d == '\n') || hasBSNL (d :: rest')) = false
      rw [hc, Bool.false_and, Bool.false_or]
      exact ih (fun hm => hmem (List.mem_cons_of_mem c hm))

/-- C3 (amended): for every input whose buffer after newline-appending
and digraph/trigraph replacement contains no backslash, the phase-filter
output ends with a newline and contains no backslash-newline.  (The
unrestricted claim fails: on buffers with backslashes the single-pass
splice can consume the final newline or create a new
backslash-newline.) -/
theorem phase_filter_no_backslash_ok (s : List Char)
    (h : '\\' ∉ replaceDiTrigraph (ensureNL s)) :
    lastChar (phaseFilter s) = some '\n' ∧ hasBSNL (phaseFilter s) = false := by
  have h2 : lastChar (replaceDiTrigraph (ensureNL s)) = some '\n' := by
    unfold replaceDiTrigraph
    exact foldl_replace_lastNL diTriTable (ensureNL s) (by decide) (ensureNL_lastNL s)
  have h3 : phaseFilter s = replaceDiTrigraph (ensureNL s) := by
    unfold phaseFilter joinBackslash replaceAll
    exact spliceFuel_id [] _ _ h
  rw [h3]
  exact ⟨h2, hasBSNL_false_of_not_mem h⟩

/-- Witness for C3's amended statement on the concrete input `x`. -/
theorem phase_filter_no_backslash_ok_witness :
    lastChar (phaseFilter ['x']) = some '\n' ∧ hasBSNL (phaseFilter ['x']) = false :=
  phase_filter_no_backslash_ok ['x'] (by decide)

/-- Token kinds emitted by `C99PreProcessorLexer` for the character
alphabet exercised here (letters, `_`, digits, parentheses, `#`,
whitespace, newline). -/
inductive TokKind where
  | kDEFINE
  | kDEFINED
  | kELIF
  | kELSE
  | kENDIF
  | kERROR
  | kIF
  | kIFDEF
  | kIFNDEF
  | kINCLUDE
  | kLINE
  | kPRAGMA
  | kUPRAGMA
  | kUNDEF
  | kDIRECTIVE
  | kIDENTIFIER
  | kCONSTANT
  | kNEWLINE
  | kLPAREN
  | kLIT (c : Char)
  deriving DecidableEq, Repr

/-- The `reserved` dict of the lexer (`c99_preprocessor.py:26-41`).  It
contains the entries `defined` and `_Pragma`, but the only rule that
consults it is `t_DIRECTIVE`, whose regex requires a leading `#`. -/
def reservedLookup (w : String) : Option TokKind :=
  List.lookup w
    [ ("#define", TokKind.kDEFINE), ("defined", TokKind.kDEFINED),
      ("#elif", TokKind.kELIF), ("#else", TokKind.kELSE),
      ("#endif", TokKind.kENDIF), ("#error", TokKind.kERROR),
      ("#if", TokKind.kIF), ("#ifdef", TokKind.kIFDEF),
      ("#ifndef", TokKind.kIFNDEF), ("#include", TokKind.kINCLUDE),
      ("#line", TokKind.kLINE), ("#pragma", TokKind.kPRAGMA),
      ("_Pragma", TokKind.kUPRAGMA), ("#undef", TokKind.kUNDEF) ]

/-- The `[a-zA-Z_]` character class. -/
def identStart (c : Char) : Bool :=
  decide (('a' ≤ c ∧ c ≤ 'z') ∨ ('A' ≤ c ∧ c ≤ 'Z') ∨ c = '_')

/-- The `[0-9]` character class. -/
def isDigitB (c : Char) : Bool :=
  decide ('0' ≤ c ∧ c ≤ '9')

/-- The `[a-zA-Z_0-9]` character class. -/
def identChar (c : Char) : Bool :=
  identStart c || isDigitB c

/-- The `\s` character class of Python `re` (relevant to the negative
lookbehind of `t_LPAREN`, `c99_preprocessor.py:218-221`). -/
def isSpaceB (c : Char) : Bool :=
  c == ' ' || c == '\t' || c == '\n' || c == '\x0d' || c == '\x0b' || c == '\x0c'

/-- The lexer on the restricted alphabet, following PLY rule order for
the rules that can fire there: `t_ignore` (space/tab), `t_NEWLINE`
(`\n+`), `t_DIRECTIVE` (`#` + identifier, looked up in `reserved`),
`t_IDENTIFIER` (identifier, NOT looked up in `reserved`), the integer
`CONSTANT` rule, `t_LPAREN` (`(` not preceded by whitespace), and
single-character literals.  `prev` is the previously consumed character
(for the lookbehind); the fuel is instantiated with the buffer length,
which suffices since every step consumes at least one character. -/
def lexTokensFuel : Nat → Option Char → List Char → List (TokKind × String)
  | 0, _, _ => []
  | _ + 1, _, [] => []
  | fuel + 1, prev, c :: rest =>
    if c == ' ' || c == '\t' then
      lexTokensFuel fuel (some c) rest
    else if c == '\n' then
      let nls := rest.takeWhile (fun d => d == '\n')
      (TokKind.kNEWLINE, String.mk (c :: nls)) ::
        lexTokensFuel fuel (some '\n') (rest.dropWhile (fun d => d == '\n'))
    else if c == '#' && (match rest.head? with
                         | some d => identStart d
                         | none => false) then
      let w := c :: rest.takeWhile identChar
      let tk := match reservedLookup (String.mk w) with
                | some k => k
                | none => TokKind.kDIRECTIVE
      (tk, String.mk w) :: lexTokensFuel fuel (lastChar w) (rest.dropWhile identChar)
    else if identStart c then
      let w := c :: rest.takeWhile identChar
      (TokKind.kIDENTIFIER, String.mk w) ::
        lexTokensFuel fuel (lastChar w) (rest.dropWhile identChar)
    else if isDigitB c then
      let w := c :: rest.takeWhile isDigitB
      (TokKind.kCONSTANT, String.mk w) ::
        lexTokensFuel fuel (lastChar w) (rest.dropWhile isDigitB)
    else if c == '(' then
      let tk := match prev with
                | some p => if isSpaceB p then TokKind.kLIT '(' else TokKind.kLPAREN
                | none => TokKind.kLPAREN
      (tk, "(") :: lexTokensFuel fuel (some '(') rest
    else
      (TokKind.kLIT c, String.mk [c]) :: lexTokensFuel fuel (some c) rest

/-- Token-kind stream of a buffer. -/
def lexC99 (s : List Char) : List TokKind :=
  (lexTokensFuel s.length none s).map Prod.fst

/-- Does a token-kind sequence match the grammar production
`unary_expression : DEFINED '(' IDENTIFIER ')'`
(`c99_preprocessor.py:643-652`)?  The `'('` in the production is the
single-character literal token, not `LPAREN`. -/
def definedProdAccepts : List TokKind → Bool
  | [TokKind.kDEFINED, TokKind.kLIT '(', TokKind.kIDENTIFIER, TokKind.kLIT ')'] => true
  | _ => false

/-- C5 (code bug): the lexer never produces the `DEFINED` token, because
`t_IDENTIFIER` does not consult the `reserved` dict (only `t_DIRECTIVE`
does, and its regex requires a leading `#`).  `#if defined(FOO)` lexes
`defined` as a plain IDENTIFIER and the unspaced `(` as `LPAREN`, so the
token stream can never match the `DEFINED '(' IDENTIFIER ')'` production
that implements the membership test — the claimed 1/0 evaluation of
`defined(X)` is unreachable (the input is a syntax error instead). -/
theorem defined_token_never_lexed :
    lexC99 ("#if defined(FOO)\n".toList)
      = [TokKind.kIF, TokKind.kIDENTIFIER, TokKind.kLPAREN, TokKind.kIDENTIFIER,
         TokKind.kLIT ')', TokKind.kNEWLINE]
  ∧ TokKind.kDEFINED ∉ lexC99 ("#if defined(FOO)\n".toList)
  ∧ definedProdAccepts (lexC99 ("defined(FOO)".toList)) = false
  ∧ definedProdAccepts (lexC99 ("defined (FOO)".toList)) = false
  ∧ definedProdAccepts
      [TokKind.kDEFINED, TokKind.kLIT '(', TokKind.kIDENTIFIER, TokKind.kLIT ')'] = true := by
  refine ⟨by decide, by decide, by decide, by decide, rfl⟩

/-- The engine state visible to `include` (`c99_preprocessor.py:984-1025`):
the header cache `headers_table`, the directory of `_current_file`
(for `"..."` resolution), the `_stdlib_path` search list, the filesystem
(path to file contents, standing in for `Path.is_file`/`read_text`), and
a counter of filesystem reads performed by recursive `process` calls. -/
structure IncState where
  headersTable : List (String × String)
  currentFileParent : String
  stdlibPath : List String
  fs : List (String × String)
  reads : Nat
  deriving DecidableEq, Repr

/-- `Path.joinpath`. -/
def joinPath (d p : String) : String := d ++ "/" ++ p

/-- `header_name[1:-1]`: the cache key is the lexical header path. -/
def headerPathOf (headerName : String) : String :=
  String.mk ((headerName.toList.drop 1).dropLast)

/-- The resolution logic of `include`: if the lexeme is quoted, try the
current file's directory first; otherwise (or when that misses) walk the
stdlib search path in order, first hit wins
(`c99_preprocessor.py:998-1013`). -/
def resolveHeader (st : IncState) (headerName : String) : Option String :=
  let headerPath := headerPathOf headerName
  let quoted := (headerName.toList.head? == some '"') && (lastChar headerName.toList == some '"')
  let relPath := joinPath st.currentFileParent headerPath
  if quoted && (List.lookup relPath st.fs).isSome then some relPath
  else (st.stdlibPath.map (fun d => joinPath d headerPath)).find?
         (fun p => (List.lookup p st.fs).isSome)

/-- `C99PreProcessor.include` (`c99_preprocessor.py:984-1025`).  The
recursive `self.process(include_path)` call is abstracted as the oracle
`procF` (it may mutate the whole state, e.g. by nested includes); the
read counter is bumped for its `read_text`.  On a cache hit the cached
preprocessed text is returned with the state untouched; on a miss the
processed text gets a trailing newline, is stored in the cache, and
returned; an unresolved header raises `FileNotFoundError`. -/
def includeM (procF : String → IncState → String × IncState) (st : IncState)
    (headerName : String) : Except String (String × IncState) :=
  match List.lookup (headerPathOf headerName) st.headersTable with
  | some cached => Except.ok (cached, st)
  | none =>
    match resolveHeader st headerName with
    | none => Except.error (headerPathOf headerName ++ " doesn't resolve to an existing file.")
    | some ip =>
      let pr := procF ip st
      Except.ok (pr.1 ++ "\n",
        { headersTable := tblInsert (headerPathOf headerName) (pr.1 ++ "\n") pr.2.headersTable
          currentFileParent := pr.2.currentFileParent
          stdlibPath := pr.2.stdlibPath
          fs := pr.2.fs
          reads := pr.2.reads + 1 })

theorem lookup_tblInsert_self {α : Type} (k : String) (v : α) (t : List (String × α)) :
    List.lookup k (tblInsert k v t) = some v := by
  simp [tblInsert, List.lookup]

/-- C8: include-once via the header cache.  Whatever the recursive
processing oracle does, once `include` has returned a text for a header
path, calling `include` again with the same lexical header name returns
exactly the same inserted text and leaves the state — in particular the
read counter — untouched: the file system is not consulted again. -/
theorem include_cache_idempotent (procF : String → IncState → String × IncState)
    (st : IncState) (h t1 : String) (s1 : IncState)
    (hfirst : includeM procF st h = Except.ok (t1, s1)) :
    includeM procF s1 h = Except.ok (t1, s1) := by
  unfold includeM at hfirst
  cases e1 : List.lookup (headerPathOf h) st.headersTable with
  | some cached =>
    rw [e1] at hfirst
    simp only [Except.ok.injEq, Prod.mk.injEq] at hfirst
    obtain ⟨ht, hs⟩ := hfirst
    subst hs
    subst ht
    unfold includeM
    rw [e1]
  | none =>
    rw [e1] at hfirst
    cases e2 : resolveHeader st h with
    | none =>
      rw [e2] at hfirst
      exact Except.noConfusion hfirst
    | some ip =>
      rw [e2] at hfirst
      simp only [Except.ok.injEq, Prod.mk.injEq] at hfirst
      obtain ⟨ht, hs⟩ := hfirst
      have hlook : List.lookup (headerPathOf h) s1.headersTable = some t1 := by
        rw [← hs, ← ht]
        exact lookup_tblInsert_self _ _ _
      unfold includeM
      rw [hlook]

/-- Concrete engine state for the C8 witness: empty cache, one file
`dir/h.h` on disk, no reads yet. -/
def wIncSt : IncState :=
  { headersTable := [], currentFileParent := "dir", stdlibPath := ["stdlib/"],
    fs := [("dir/h.h", "BODY")], reads := 0 }

/-- A trivial processing oracle for the C8 witness. -/
def wProcF : String → IncState → String × IncState := fun _ s => ("BODY", s)

/-- The state after the first inclusion in the C8 witness: the cache
holds the preprocessed text and exactly one read happened. -/
def wIncSt1 : IncState :=
  { headersTable := [("h.h", "BODY\n")], currentFileParent := "dir",
    stdlibPath := ["stdlib/"], fs := [("dir/h.h", "BODY")], reads := 1 }

/-- Witness for C8: after a first `#include "h.h"` that read and cached
`BODY`, a second inclusion returns the identical text and performs no
further read. -/
theorem include_cache_idempotent_witness :
    includeM wProcF wIncSt1 "\"h.h\"" = Except.ok ("BODY\n", wIncSt1) :=
  include_cache_idempotent wProcF wIncSt "\"h.h\"" "BODY\n" wIncSt1 rfl

end CPyComp
